import Mathlib

/-!
Verification of the gnuplot output module (`src/output/gnuplot.c`) of
libsigrok.  The module converts chunks of bit-packed logic samples into a
gnuplot-readable column-text format.

Shallow embedding conventions:
* C unsigned integers are modelled as `Nat` with explicit `% 2 ^ w` where
  wraparound can occur (`uint64_t` counters, the 32-bit `outsize`).
* The two `static uint64_t` variables of `data` (`samplecount`,
  `old_sample`) are modelled as an explicit record `Statics` threaded
  through the calls; a fresh process (hence a fresh first session) starts
  from `⟨0, 0⟩`.
* Fallible allocation is an explicit boolean oracle (`g_try_malloc0`
  returns NULL also when the requested size is 0, per glib).
* Paths on which the C code has undefined behaviour (reads of
  uninitialized storage, out-of-bounds accesses, division by zero,
  signed-shift overflow) are modelled as `Option.none`.
-/

namespace Gnuplot

/-- Return codes used by the module: `SR_OK`, `SR_ERR_ARG`,
`SR_ERR_MALLOC`, `SR_ERR`. -/
inductive SrRet where
  | ok
  | errArg
  | errMalloc
  | err
deriving DecidableEq

/-- One entry of the device's probe list: a name and an enabled flag. -/
structure Probe where
  name : String
  enabled : Bool
deriving DecidableEq

/-- `struct context` of the source: enabled-probe count, bytes per packed
sample, the enabled probe names in order, and the pending header (cleared
after the first data chunk). -/
structure Context where
  num_enabled_probes : Nat
  unitsize : Nat
  probelist : List String
  header : Option String
deriving DecidableEq

/-- The two `static uint64_t` variables of `data`:
`samplecount` and `old_sample`. -/
structure Statics where
  samplecount : Nat
  old_sample : Nat
deriving DecidableEq

/-- `x++` on a `uint64_t`: the stored value after the increment. -/
def inc64 (n : Nat) : Nat := (n + 1) % 2 ^ 64

/-- Decimal digits of `n`, most significant first, fuel-bounded exactly
like the at-most-20-digit output of `printf("%" PRIu64)`. -/
def decDigitsAux : Nat → Nat → List Char → List Char
  | 0, _, acc => acc
  | fuel + 1, n, acc =>
    let acc' := Nat.digitChar (n % 10) :: acc
    if n / 10 = 0 then acc' else decDigitsAux fuel (n / 10) acc'

/-- `printf("%" PRIu64, n)` for `n < 2 ^ 64` (at most 20 digits). -/
def u64Dec (n : Nat) : String := ⟨decDigitsAux 20 n []⟩

/-- The C expression `(uint64_t)(1 << p)`: the shift is performed on a
32-bit `int`, so it is undefined for `p ≥ 31` (for `p = 31` the result
`2 ^ 31` is not representable in `int`; for `p ≥ 32` the shift count
reaches the width).  Defined (with value `2 ^ p`) only for `p ≤ 30`. -/
def shl1_int (p : Nat) : Option Nat :=
  if p ≤ 30 then some (2 ^ p) else none

/-- `curbit = (sample & ((uint64_t)(1 << p))) >> p` from the source. -/
def curbitC (sample p : Nat) : Option Nat :=
  match shl1_int p with
  | none => none
  | some m => some ((sample &&& m) >>> p)

/-- The inner column loop of `data`: for `p = 0, …, E-1` append
`sprintf("%d ", curbit)` (the `% 2 ^ 32` is the conversion of the result
to the `unsigned int` variable `curbit`). -/
def bitsStr (sample : Nat) : Nat → Option String
  | 0 => some ("")
  | p + 1 =>
    match bitsStr sample p with
    | none => none
    | some pre =>
      match curbitC sample p with
      | none => none
      | some b => some (pre ++ u64Dec (b % 2 ^ 32) ++ " ")

/-- One emitted data row: the counter value printed by
`sprintf("%" PRIu64 "\t", samplecount++)`, the bit columns, and the final
newline. -/
def mkRow (E counter sample : Nat) : Option String :=
  match bitsStr sample E with
  | none => none
  | some bits => some (u64Dec counter ++ "\t" ++ bits ++ "\n")

/-- The sample loop of `data` (lines 246–273 of the source), over the
already-decoded samples of the chunk.  `lastFlag` records whether
`length_in` is a multiple of `unitsize`: the C test
`i != (length_in - ctx->unitsize)` succeeds for the final processed sample
exactly when it is (so with a trailing partial sample no processed sample
passes the last-of-chunk test).  The skip branch is
`if (samplecount++ != 0 && sample == old_sample) if (i != last) continue;`
note that `samplecount` is incremented once in the test and (for emitted
rows) once more inside `sprintf`. -/
def runLoop (E : Nat) (lastFlag : Bool) : Statics → List Nat → Option (Statics × List String)
  | st, [] => some (st, [])
  | st, s :: rest =>
    if st.samplecount ≠ 0 ∧ s = st.old_sample ∧ (rest.isEmpty && lastFlag) = false then
      runLoop E lastFlag ⟨inc64 st.samplecount, st.old_sample⟩ rest
    else
      match mkRow E (inc64 st.samplecount) s with
      | none => none
      | some row =>
        match runLoop E lastFlag ⟨inc64 (inc64 st.samplecount), s⟩ rest with
        | none => none
        | some (st', rows) => some (st', row :: rows)

/-- `memcpy(&sample, data_in + i, unitsize)` into a little-endian
`uint64_t`: the value of a byte list, least significant byte first. -/
def decodeLE : List Nat → Nat
  | [] => 0
  | b :: rest => b % 256 + 256 * decodeLE rest

/-- The decoded complete samples of a chunk: `length / unitsize` samples
of `unitsize` bytes each (a trailing partial sample contributes none). -/
def chunkSamples (u : Nat) (input : List Nat) : List Nat :=
  (List.range (input.length / u)).map fun j => decodeLE ((input.drop (j * u)).take u)

/-- String concatenation of the emitted rows, in order, as the sample
loop appends them into `outbuf`. -/
def joinRows : List String → String
  | [] => ""
  | r :: rs => r ++ joinRows rs

/-- The `data` callback (lines 193–279).  Result `none` models undefined
behaviour; `some (ret, internal, statics, out)` gives the return code, the
session state after the call, and `out = some text` when
`*data_out`/`*length_out` were assigned (`none` when left untouched).

Faithful details: `outsize` is an `unsigned int`, so the product
`length_in / unitsize * max_linelen` is truncated mod `2 ^ 32`;
`g_try_malloc0` fails when the oracle says so or when `outsize = 0`;
for `length_in < unitsize` the loop bound `length_in - unitsize`
underflows in `uint64_t` and the loop reads past the input buffer (UB);
the loop index `i` is an `unsigned int`, so inputs of `2 ^ 32` bytes or
more make it wrap (UB, modelled as `none`); writing more than the
allocated `outsize` bytes (rows plus the terminating NUL) is a heap
overflow (UB). -/
def data (internal : Option Context) (st : Statics) (input : List Nat) (allocOk : Bool) :
    Option (SrRet × Option Context × Statics × Option String) :=
  match internal with
  | none => some (.errArg, none, st, none)
  | some ctx =>
    if ctx.unitsize = 0 then none
    else
      let max_linelen := 16 + 2 * ctx.num_enabled_probes
      let k := input.length / ctx.unitsize
      let headerLen := (ctx.header.getD ("")).length
      let outsize := (k * max_linelen % 2 ^ 32 + headerLen) % 2 ^ 32
      if allocOk = false ∨ outsize = 0 then some (.errMalloc, some ctx, st, none)
      else
        let hdr := ctx.header.getD ("")
        let ctx' := { ctx with header := none }
        if input.length < ctx.unitsize then none
        else if 2 ^ 32 ≤ input.length then none
        else
          match runLoop ctx.num_enabled_probes (input.length % ctx.unitsize == 0) st
              (chunkSamples ctx.unitsize input) with
          | none => none
          | some (st', rows) =>
            let out := hdr ++ joinRows rows
            if outsize ≤ out.length then none
            else some (.ok, some ctx', st', some out)

/-- Modelled from the spec: the protocol's maximum supported channel
count (`SR_MAX_NUM_PROBES`, declared outside `src/`); the spec's
buffer-size fuzzing range for channel counts is 1..64. -/
def SR_MAX_NUM_PROBES : Nat := 64

/-- Modelled from the spec: the fixed maximum probe-name length
(`SR_MAX_PROBENAME_LEN`, declared outside `src/`); it only enters the
header-buffer size bound. -/
def SR_MAX_PROBENAME_LEN : Nat := 32

/-- `MAX_HEADER_LEN` from the source. -/
def MAX_HEADER_LEN : Nat := 1024 + SR_MAX_NUM_PROBES * (SR_MAX_PROBENAME_LEN + 10)

/-- The optional `# Comment:` header line (format string
`gnuplot_header_comment`), truncated by `snprintf(comment, 127, …)` to at
most 126 characters. -/
def headerComment (E T : Nat) (rateStr : String) : String :=
  ("# Comment: Acquisition with " ++ u64Dec E ++ "/" ++ u64Dec T ++
    " probes at " ++ rateStr ++ "\n").take 126

/-- The per-probe column lines `# <i>\t\t<name>\n`, 1-based. -/
def colLinesAux : Nat → List String → String
  | _, [] => ""
  | i, n :: rest => "# " ++ u64Dec i ++ "\t\t" ++ n ++ "\n" ++ colLinesAux (i + 1) rest

/-- The column/channel block written into `wbuf`. -/
def colLines (names : List String) : String := colLinesAux 1 names

/-- The full header text (format string `gnuplot_header`): note that the
timestamp produced by `ctime` carries its own trailing newline, and the
comment slot is either empty or a full line. -/
def headerText (pkg ts comment period wbuf : String) : String :=
  "# Sample data in space-separated columns format usable by gnuplot\n" ++
  "#\n" ++
  "# Generated by: " ++ pkg ++ " on " ++ ts ++ comment ++
  "# Period: " ++ period ++ "\n" ++
  "#\n" ++
  "# Column\tProbe\n" ++
  "# -----------------------------------------------------------------------------\n" ++
  "# 0\t\tSample counter (for internal gnuplot purposes)\n" ++
  wbuf ++ "\n"

/-- The `init` callback (lines 61–154).  `fSr`/`fPer` are the external
formatters `sr_samplerate_string` / `sr_period_string` (which may fail),
`pkg`/`ts` are `PACKAGE_STRING` and the `ctime` text.  Result `none`
models undefined behaviour; otherwise an error code or the built context.

Faithful details: more than `SR_MAX_NUM_PROBES` enabled probes overflow
the fixed `probelist` array (UB); when the device lacks the samplerate
capability the local `samplerate` pointer is never assigned, yet
`sr_period_string(*samplerate)` dereferences it (UB); the final header is
truncated by `snprintf` to `MAX_HEADER_LEN - 1` characters. -/
def init (probes : List Probe) (hasCap : Bool) (rate : Nat)
    (fSr fPer : Nat → Option String) (pkg ts : String)
    (ctxAlloc hdrAlloc : Bool) : Option (Except SrRet Context) :=
  if ctxAlloc = false then some (.error .errMalloc)
  else if hdrAlloc = false then some (.error .errMalloc)
  else
    let probelist := (probes.filter (·.enabled)).map (·.name)
    if SR_MAX_NUM_PROBES < probelist.length then none
    else
      let E := probelist.length
      let T := probes.length
      let samplerate? : Option Nat := if hasCap then some rate else none
      let commentStep : Except SrRet String :=
        if hasCap then
          match fSr rate with
          | none => .error .err
          | some rs => .ok (headerComment E T rs)
        else .ok ""
      match commentStep with
      | .error e => some (.error e)
      | .ok comment =>
        let wbuf := colLines probelist
        match samplerate? with
        | none => none
        | some sr =>
          match fPer sr with
          | none => some (.error .err)
          | some period =>
            some (.ok
              { num_enabled_probes := E
                unitsize := (E + 7) / 8
                probelist := probelist
                header := some ((headerText pkg ts comment period wbuf).take (MAX_HEADER_LEN - 1)) })

/-- `SR_DF_END` event tag (numeric value declared outside `src/`; only
its distinctness from the other tags matters). -/
def SR_DF_END : Nat := 1

/-- `SR_DF_TRIGGER` event tag (numeric value declared outside `src/`). -/
def SR_DF_TRIGGER : Nat := 2

/-- The `event` callback (lines 156–191): `SR_DF_END` frees the session
state (`g_free(NULL)` on an already-freed state is a no-op) and every
event kind then sets `*data_out = NULL`, `*length_out = 0` and returns
`SR_OK`. -/
def event (internal : Option Context) (event_type : Nat) :
    SrRet × Option Context × Option String × Nat :=
  (SrRet.ok, if event_type = SR_DF_END then none else internal, none, 0)

/-- Follows the spec's words (claim C2), not the source: a row is emitted
for a sample iff it is the first sample of the session (no previously
processed sample, `prev = none`), or the last sample of the delivered
chunk, or its value differs from the immediately preceding processed
sample.  Counts the rows such a policy emits for a chunk. -/
def specEmitCount : Option Nat → List Nat → Nat
  | _, [] => 0
  | none, s :: rest => 1 + specEmitCount (some s) rest
  | some prev, s :: rest =>
    if rest.isEmpty then 1
    else (if s = prev then 0 else 1) + specEmitCount (some s) rest

/-- The previously processed sample as the dedup test sees it: none for a
fresh session (`samplecount = 0`), otherwise `old_sample`. -/
def maskPrev (st : Statics) : Option Nat :=
  if st.samplecount = 0 then none else some st.old_sample

/-! Equation lemmas for `runLoop` (its structural recursion unfolds by
`rfl` on constructors). -/

lemma runLoop_nil (E : Nat) (lf : Bool) (st : Statics) :
    runLoop E lf st [] = some (st, []) := rfl

lemma runLoop_cons (E : Nat) (lf : Bool) (st : Statics) (s : Nat) (rest : List Nat) :
    runLoop E lf st (s :: rest) =
      if st.samplecount ≠ 0 ∧ s = st.old_sample ∧ (rest.isEmpty && lf) = false then
        runLoop E lf ⟨inc64 st.samplecount, st.old_sample⟩ rest
      else
        match mkRow E (inc64 st.samplecount) s with
        | none => none
        | some row =>
          match runLoop E lf ⟨inc64 (inc64 st.samplecount), s⟩ rest with
          | none => none
          | some (st', rows) => some (st', row :: rows) := rfl

lemma inc64_of_lt {n : Nat} (h : n + 1 < 2 ^ 64) : inc64 n = n + 1 :=
  Nat.mod_eq_of_lt h

/-! Length facts about the rendered pieces of a row. -/

lemma and_two_pow_shiftRight_le_one (s p : Nat) : (s &&& 2 ^ p) >>> p ≤ 1 := by
  rw [Nat.and_two_pow, Nat.shiftRight_eq_div_pow,
    Nat.mul_div_cancel _ (Nat.pos_pow_of_pos p (by norm_num))]
  cases s.testBit p <;> simp

lemma u64Dec_length_one {b : Nat} (hb : b ≤ 1) : (u64Dec b).length = 1 := by
  interval_cases b <;> decide

lemma bitsStr_length {s : Nat} : ∀ {E : Nat} {t : String},
    bitsStr s E = some t → t.length = 2 * E := by
  intro E
  induction E with
  | zero =>
    intro t h
    simp only [bitsStr, Option.some.injEq] at h
    subst h
    rfl
  | succ p ih =>
    intro t h
    simp only [bitsStr] at h
    cases hpre : bitsStr s p with
    | none => rw [hpre] at h; exact Option.noConfusion h
    | some pre =>
      rw [hpre] at h
      cases hb : curbitC s p with
      | none => rw [hb] at h; exact Option.noConfusion h
      | some b =>
        rw [hb] at h
        simp only [Option.some.injEq] at h
        subst h
        have hble : b ≤ 1 := by
          unfold curbitC at hb
          cases hs : shl1_int p with
          | none => rw [hs] at hb; exact Option.noConfusion hb
          | some m =>
            rw [hs] at hb
            simp only [Option.some.injEq] at hb
            have hm : m = 2 ^ p := by
              unfold shl1_int at hs
              split at hs
              · simpa using hs.symm
              · exact Option.noConfusion hs
            rw [← hb, hm]
            exact and_two_pow_shiftRight_le_one s p
        have hmod : b % 2 ^ 32 = b := Nat.mod_eq_of_lt (lt_of_le_of_lt hble (by norm_num))
        have hsp : (" " : String).length = 1 := rfl
        rw [String.length_append, String.length_append, hmod,
          u64Dec_length_one hble, ih hpre, hsp]
        omega

lemma decDigitsAux_length_le :
    ∀ (fuel : Nat) {k n : Nat} (acc : List Char), n < 10 ^ k → 1 ≤ k → k ≤ fuel →
      (decDigitsAux fuel n acc).length ≤ k + acc.length := by
  intro fuel
  induction fuel with
  | zero =>
    intro k n acc _ hk hkf
    exact absurd (hk.trans hkf) (by norm_num)
  | succ fuel ih =>
    intro k n acc hn hk hkf
    simp only [decDigitsAux]
    split
    · simp only [List.length_cons]
      omega
    · rename_i hdiv
      have h10 : 10 ≤ n := by
        by_contra hlt
        exact hdiv ((Nat.div_eq_zero_iff (by norm_num)).mpr (by omega))
      have hk2 : 2 ≤ k := by
        by_contra hlt
        have : k = 1 := by omega
        subst this
        simp at hn
        omega
      have hdivlt : n / 10 < 10 ^ (k - 1) := by
        rw [Nat.div_lt_iff_lt_mul (by norm_num : (0:Nat) < 10)]
        calc n < 10 ^ k := hn
          _ = 10 ^ (k - 1) * 10 := by
              rw [← pow_succ]
              congr 1
              omega
      have := ih (Nat.digitChar (n % 10) :: acc) hdivlt (by omega) (by omega)
      simp only [List.length_cons] at this
      omega

lemma u64Dec_length_le {n d : Nat} (h : n < 10 ^ d) (hd1 : 1 ≤ d) (hd2 : d ≤ 20) :
    (u64Dec n).length ≤ d := by
  have h2 := decDigitsAux_length_le 20 ([]) h hd1 hd2
  simpa [u64Dec, String.length] using h2

lemma mkRow_length {E c s d : Nat} {r : String} (h : mkRow E c s = some r)
    (hc : c < 10 ^ d) (hd1 : 1 ≤ d) (hd2 : d ≤ 20) : r.length ≤ 2 + d + 2 * E := by
  unfold mkRow at h
  cases hb : bitsStr s E with
  | none => rw [hb] at h; exact Option.noConfusion h
  | some bits =>
    rw [hb] at h
    simp only [Option.some.injEq] at h
    subst h
    have h1 := bitsStr_length hb
    have h2 := u64Dec_length_le hc hd1 hd2
    have ht : ("\t" : String).length = 1 := rfl
    have hn : ("\n" : String).length = 1 := rfl
    rw [String.length_append, String.length_append, String.length_append, ht, hn, h1]
    omega

/-- Total output length of the sample loop: each emitted row needs at
most `2 + d + 2E` bytes (counter digits, tab, bit columns, newline) as
long as every counter stays below `10 ^ d` during the chunk. -/
lemma runLoop_rows_length (E : Nat) (lf : Bool) (d : Nat) (hd1 : 1 ≤ d) (hd2 : d ≤ 19) :
    ∀ (l : List Nat) (st st' : Statics) (rows : List String),
      runLoop E lf st l = some (st', rows) →
      st.samplecount + 2 * l.length < 10 ^ d →
      (joinRows rows).length ≤ l.length * (2 + d + 2 * E) := by
  intro l
  induction l with
  | nil =>
    intro st st' rows h _
    rw [runLoop_nil] at h
    simp only [Option.some.injEq, Prod.mk.injEq] at h
    rw [← h.2]
    simp [joinRows]
  | cons s rest ih =>
    intro st st' rows h hc
    have hpow : (10:Nat) ^ d < 2 ^ 64 :=
      lt_of_le_of_lt (Nat.pow_le_pow_right (by norm_num) hd2) (by norm_num)
    simp only [List.length_cons] at hc
    have h1 : inc64 st.samplecount = st.samplecount + 1 := inc64_of_lt (by omega)
    rw [runLoop_cons] at h
    split at h
    · rw [h1] at h
      have hrec := ih ⟨st.samplecount + 1, st.old_sample⟩ st' rows h (by simp; omega)
      calc (joinRows rows).length ≤ rest.length * (2 + d + 2 * E) := hrec
        _ ≤ (rest.length + 1) * (2 + d + 2 * E) := Nat.mul_le_mul_right _ (by omega)
    · cases hm : mkRow E (inc64 st.samplecount) s with
      | none => rw [hm] at h; exact Option.noConfusion h
      | some row =>
        rw [hm] at h
        cases hr : runLoop E lf ⟨inc64 (inc64 st.samplecount), s⟩ rest with
        | none => rw [hr] at h; exact Option.noConfusion h
        | some p =>
          rw [hr] at h
          obtain ⟨st2, rows2⟩ := p
          simp only [Option.some.injEq, Prod.mk.injEq] at h
          obtain ⟨hst2, hrows⟩ := h
          rw [← hrows]
          have h2 : inc64 (inc64 st.samplecount) = st.samplecount + 2 := by
            rw [h1]
            exact inc64_of_lt (by omega)
          rw [h2] at hr
          have hrow : row.length ≤ 2 + d + 2 * E := by
            apply mkRow_length hm _ hd1 (by omega)
            rw [h1]
            omega
          have hrec := ih _ _ _ hr (by simp; omega)
          simp only [joinRows, String.length_append, List.length_cons]
          calc row.length + (joinRows rows2).length
              ≤ (2 + d + 2 * E) + rest.length * (2 + d + 2 * E) := Nat.add_le_add hrow hrec
            _ = (rest.length + 1) * (2 + d + 2 * E) := by ring

/-! Unfolding lemmas for `specEmitCount` and small list facts. -/

lemma specEmitCount_nil (prev : Option Nat) : specEmitCount prev [] = 0 := by
  cases prev <;> rfl

lemma specEmitCount_none_cons (s : Nat) (rest : List Nat) :
    specEmitCount none (s :: rest) = 1 + specEmitCount (some s) rest := rfl

lemma specEmitCount_some_cons (prev s : Nat) (rest : List Nat) :
    specEmitCount (some prev) (s :: rest) =
      if rest.isEmpty then 1
      else (if s = prev then 0 else 1) + specEmitCount (some s) rest := rfl

lemma getLast?_cons_ne {α : Type} (a : α) {l : List α} (h : l ≠ []) :
    (a :: l).getLast? = l.getLast? := by
  cases l with
  | nil => exact absurd rfl h
  | cons b t => exact List.getLast?_cons_cons ..

lemma isEmpty_false_of_ne {α : Type} {l : List α} (h : l ≠ []) : l.isEmpty = false := by
  cases l with
  | nil => exact absurd rfl h
  | cons b t => rfl

lemma ne_nil_of_getLast?_some {α : Type} {l : List α} {a : α}
    (h : l.getLast? = some a) : l ≠ [] := by
  intro h0
  subst h0
  exact Option.noConfusion h

/-- The sample loop emits exactly the rows the spec's dedup policy
prescribes (counted by `specEmitCount`), and the last emitted row is a
row for the last sample of the chunk. -/
lemma runLoop_emit_spec (E : Nat) :
    ∀ (l : List Nat) (st st' : Statics) (rows : List String),
      runLoop E true st l = some (st', rows) →
      st.samplecount + 2 * l.length < 2 ^ 64 →
      rows.length = specEmitCount (maskPrev st) l ∧
      (l = [] ∨ ∃ c r s0, l.getLast? = some s0 ∧ mkRow E c s0 = some r ∧
        rows.getLast? = some r) := by
  intro l
  induction l with
  | nil =>
    intro st st' rows h _
    rw [runLoop_nil] at h
    simp only [Option.some.injEq, Prod.mk.injEq] at h
    rw [← h.2]
    exact ⟨(specEmitCount_nil _).symm, Or.inl rfl⟩
  | cons s rest ih =>
    intro st st' rows h hw
    simp only [List.length_cons] at hw
    have h1 : inc64 st.samplecount = st.samplecount + 1 := inc64_of_lt (by omega)
    rw [runLoop_cons] at h
    split at h
    · rename_i hcond
      obtain ⟨hsc, hseq, hlast⟩ := hcond
      have hrestne : rest ≠ [] := by
        intro hre
        subst hre
        simp at hlast
      rw [h1] at h
      have hrec := ih ⟨st.samplecount + 1, st.old_sample⟩ st' rows h (by simp; omega)
      constructor
      · rw [hrec.1]
        have hm1 : maskPrev ⟨st.samplecount + 1, st.old_sample⟩ = some st.old_sample := by
          simp [maskPrev]
        have hm2 : maskPrev st = some st.old_sample := by simp [maskPrev, hsc]
        rw [hm1, hm2, specEmitCount_some_cons, isEmpty_false_of_ne hrestne]
        rw [if_neg (by simp), if_pos hseq, hseq]
        omega
      · refine Or.inr ?_
        obtain ⟨c, r, s0, hl, hm, hr⟩ := hrec.2.resolve_left hrestne
        exact ⟨c, r, s0, by rw [getLast?_cons_ne _ hrestne]; exact hl, hm, hr⟩
    · rename_i hncond
      cases hm : mkRow E (inc64 st.samplecount) s with
      | none => rw [hm] at h; exact Option.noConfusion h
      | some row =>
        rw [hm] at h
        cases hr : runLoop E true ⟨inc64 (inc64 st.samplecount), s⟩ rest with
        | none => rw [hr] at h; exact Option.noConfusion h
        | some p =>
          rw [hr] at h
          obtain ⟨st2, rows2⟩ := p
          simp only [Option.some.injEq, Prod.mk.injEq] at h
          obtain ⟨hst2, hrows⟩ := h
          rw [← hrows]
          cases hrest : rest with
          | nil =>
            subst hrest
            rw [runLoop_nil] at hr
            simp only [Option.some.injEq, Prod.mk.injEq] at hr
            rw [← hr.2]
            constructor
            · cases hmp : maskPrev st with
              | none => rw [specEmitCount_none_cons, specEmitCount_nil]; rfl
              | some prev => rw [specEmitCount_some_cons]; rfl
            · exact Or.inr ⟨inc64 st.samplecount, row, s, rfl, hm, rfl⟩
          | cons s1 rest1 =>
            rw [← hrest]
            have hrestne : rest ≠ [] := by rw [hrest]; exact List.cons_ne_nil _ _
            have h2 : inc64 (inc64 st.samplecount) = st.samplecount + 2 := by
              rw [h1]
              exact inc64_of_lt (by omega)
            rw [h2] at hr
            have hrec := ih _ _ _ hr (by simp; omega)
            constructor
            · simp only [List.length_cons]
              rw [hrec.1]
              have hm2 : maskPrev ⟨st.samplecount + 2, s⟩ = some s := by simp [maskPrev]
              rw [hm2]
              by_cases hsc : st.samplecount = 0
              · have : maskPrev st = none := by simp [maskPrev, hsc]
                rw [this, specEmitCount_none_cons]
                omega
              · have hmp : maskPrev st = some st.old_sample := by simp [maskPrev, hsc]
                have hneq : s ≠ st.old_sample := by
                  intro heq
                  exact hncond ⟨hsc, heq, by rw [isEmpty_false_of_ne hrestne]; rfl⟩
                rw [hmp, specEmitCount_some_cons, isEmpty_false_of_ne hrestne]
                rw [if_neg (by simp), if_neg hneq]
                omega
            · refine Or.inr ?_
              obtain ⟨c, r, s0, hl, hmr, hlr⟩ := hrec.2.resolve_left hrestne
              have hrows2ne : rows2 ≠ [] := ne_nil_of_getLast?_some hlr
              refine ⟨c, r, s0, ?_, hmr, ?_⟩
              · rw [getLast?_cons_ne _ hrestne]
                exact hl
              · rw [getLast?_cons_ne _ hrows2ne]
                exact hlr

/-- C1: the source increments `samplecount` twice per emitted sample
(once in the dedup test, once inside the `sprintf`), so the first row of
a fresh session carries counter 1 (not 0) and after one processed sample
the counter is 2 (not 1). -/
theorem counter_double_increment_eval :
    data (some ⟨1, 1, [("P0")], some ("H")⟩) ⟨0, 0⟩ [0] true =
      some (.ok, some ⟨1, 1, [("P0")], none⟩, ⟨2, 0⟩, some ("H1\t0 \n")) := rfl

/-- C3: for three channels named A,B,C and the single chunk
`[0b011, 0b011, 0b101]` on a fresh session, the code emits the header
followed by rows with counters 1 and 4 (the middle duplicate is
suppressed) — not the counters 0 and 2 the spec expects. -/
theorem three_channel_chunk_eval :
    data (some ⟨3, 1, [("A"), ("B"), ("C")], some ("H")⟩) ⟨0, 0⟩ [3, 3, 5] true =
      some (.ok, some ⟨3, 1, [("A"), ("B"), ("C")], none⟩, ⟨5, 5⟩,
        some ("H1\t1 1 0 \n4\t1 0 1 \n")) := rfl

/-- C5: on the empty input buffer the loop bound
`length_in - ctx->unitsize` underflows in `uint64_t`, so the loop reads
past the input buffer: undefined behaviour (`none`), not a clean
zero-sample conversion. -/
theorem empty_input_oob_eval :
    data (some ⟨1, 1, [("P0")], some ("H")⟩) ⟨0, 0⟩ [] true = none := rfl

/-- C6: when the device lacks the samplerate capability, `init` calls
`sr_period_string(*samplerate)` with `samplerate` never assigned — an
uninitialized-pointer dereference (undefined behaviour), instead of
producing a header without the comment line. -/
theorem init_missing_samplerate_undefined :
    init [⟨("A"), true⟩] false 0 (fun _ => none) (fun _ => none) ("p") ("t") true true =
      none := rfl

/-- C7: after `event` with `SR_DF_END` the session state is released
(`o->internal = NULL`), and every subsequent `data` call on it fails at
the `!o->internal` guard — the source's realization of the destroyed
session error (code `SR_ERR_ARG`) — touching neither the statics nor the
output pointers. -/
theorem convert_after_end_fails (ctx : Context) (st : Statics) (input : List Nat)
    (allocOk : Bool) :
    (event (some ctx) SR_DF_END).2.1 = none ∧
    data (event (some ctx) SR_DF_END).2.1 st input allocOk =
      some (.errArg, none, st, none) := ⟨rfl, rfl⟩

/-- C8: the bit mask is computed as `(uint64_t)(1 << p)` where `1 << p`
is 32-bit `int` arithmetic, undefined for `p ≥ 31`; with 33 enabled
channels the row for sample `2 ^ 32` therefore has no defined '0'/'1'
column text. -/
theorem bit_mask_shift_undefined_eval :
    mkRow 33 1 (2 ^ 32) = none ∧ curbitC (2 ^ 32) 31 = none ∧ curbitC 5 2 = some 1 :=
  ⟨rfl, rfl, rfl⟩

/-- C9: when the output allocation fails, `data` returns `SR_ERR_MALLOC`
before writing anything: the pending header, the sample counter and the
last-sample value are untouched and no output is handed back. -/
theorem alloc_failure_preserves_state (ctx : Context) (st : Statics) (input : List Nat)
    (hu : ctx.unitsize ≠ 0) :
    data (some ctx) st input false = some (.errMalloc, some ctx, st, none) := by
  simp [data, hu]

theorem alloc_failure_preserves_state_witness :
    data (some ⟨1, 1, [], none⟩) ⟨3, 9⟩ [1, 2] false =
      some (.errMalloc, some ⟨1, 1, [], none⟩, ⟨3, 9⟩, none) :=
  alloc_failure_preserves_state ⟨1, 1, [], none⟩ ⟨3, 9⟩ [1, 2] (by decide)

/-- C2 (counterexample): the dedup state lives in process-lifetime
statics, not in the session, so the claim's per-session reading fails: a
session opened after a previous one left the statics at `⟨2, 5⟩` has its
own first sample suppressed when it equals the previous session's last
processed value — one row where the per-session policy
(`specEmitCount none`, first-of-session always emitted) demands two. -/
theorem dedup_session_leak_counterexample :
    runLoop 1 true ⟨2, 5⟩ [5, 7] = some (⟨5, 7⟩, [("4\t1 \n")]) ∧
    ([("4\t1 \n")] : List String).length ≠ specEmitCount none [5, 7] :=
  ⟨rfl, by decide⟩

/-- C2 (amended): for a chunk of complete samples the loop emits exactly
the rows of the dedup policy with the boundary protections scoped to the
process-lifetime statics (`specEmitCount` over `maskPrev`, written from
the claim: a row iff no sample was processed before — `samplecount = 0`,
which is the session's first sample only for the first session of a
process — or chunk-last, or value change against the previously processed
sample, which the statics carry across sessions); the last emitted row is
a row for the chunk's last sample, and when `samplecount = 0` the first
emitted row is a row for the chunk's first sample.  The arithmetic side
condition rules out 64-bit counter wraparound during the chunk. -/
theorem dedup_boundary_preservation (E : Nat) (st st' : Statics) (l : List Nat)
    (rows : List String) (h : runLoop E true st l = some (st', rows))
    (hw : st.samplecount + 2 * l.length < 2 ^ 64) :
    rows.length = specEmitCount (maskPrev st) l ∧
    (l = [] ∨ ∃ c r s0, l.getLast? = some s0 ∧ mkRow E c s0 = some r ∧
      rows.getLast? = some r) ∧
    (∀ s rest, l = s :: rest → st.samplecount = 0 →
      ∃ r rows', mkRow E 1 s = some r ∧ rows = r :: rows') := by
  obtain ⟨h1, h2⟩ := runLoop_emit_spec E l st st' rows h hw
  refine ⟨h1, h2, ?_⟩
  intro s rest hl h0
  subst hl
  rw [runLoop_cons] at h
  rw [if_neg (by simp [h0])] at h
  rw [h0] at h
  have hi : inc64 0 = 1 := rfl
  rw [hi] at h
  cases hm : mkRow E 1 s with
  | none => rw [hm] at h; exact Option.noConfusion h
  | some row =>
    rw [hm] at h
    cases hr : runLoop E true ⟨inc64 1, s⟩ rest with
    | none => rw [hr] at h; exact Option.noConfusion h
    | some p =>
      rw [hr] at h
      obtain ⟨st2, rows2⟩ := p
      simp only [Option.some.injEq, Prod.mk.injEq] at h
      exact ⟨row, rows2, rfl, h.2.symm⟩

theorem dedup_boundary_preservation_witness :
    ([("1\t0 \n"), ("5\t1 \n"), ("8\t0 \n")] : List String).length =
      specEmitCount (maskPrev ⟨0, 0⟩) [0, 0, 0, 1, 1, 0] :=
  (dedup_boundary_preservation 1 ⟨0, 0⟩ ⟨9, 0⟩ [0, 0, 0, 1, 1, 0]
    [("1\t0 \n"), ("5\t1 \n"), ("8\t0 \n")] rfl (by norm_num)).1

/-- C4 (counterexample): the per-row budget `16 + 2E` only covers
counters of at most 13 decimal digits once `sprintf`'s terminating NUL is
counted.  With the 64-bit session counter at `10 ^ 14 - 1` a single
emitted row is 19 bytes of text, exceeding the allocated
`k·(16+2E) + header_len = 18`; already at `10 ^ 13 - 1` the 14-digit row
is exactly 18 bytes of text and the NUL lands one byte past the
allocation — in both cases `data` overruns (undefined behaviour,
`none`). -/
theorem capacity_formula_counterexample :
    runLoop 1 true ⟨10 ^ 14 - 1, 1⟩ [0] =
      some (⟨10 ^ 14 + 1, 0⟩, [("100000000000000\t0 \n")]) ∧
    1 * (16 + 2 * 1) + 0 < (joinRows [("100000000000000\t0 \n")]).length ∧
    data (some ⟨1, 1, [], none⟩) ⟨10 ^ 14 - 1, 1⟩ [0] true = none ∧
    data (some ⟨1, 1, [], none⟩) ⟨10 ^ 13 - 1, 1⟩ [0] true = none :=
  ⟨rfl, by decide, rfl, rfl⟩

/-- C4 (amended): for a nonempty chunk of `k` complete samples the bytes
written — the pending header, the emitted rows, and the final
terminating NUL — stay within the allocated `k·(16 + 2E) + header_length`
provided the session counter stays below `10 ^ 13` throughout the call
(each printed counter then has at most 13 digits, so a row needs at most
`15 + 2E` bytes and at least one byte per sample remains for the NUL). -/
theorem output_capacity_bound (E : Nat) (lf : Bool) (st st' : Statics) (l : List Nat)
    (rows : List String) (hdr : String)
    (h : runLoop E lf st l = some (st', rows))
    (hc : st.samplecount + 2 * l.length < 10 ^ 13) (hl : l ≠ []) :
    (hdr ++ joinRows rows).length + 1 ≤ l.length * (16 + 2 * E) + hdr.length := by
  rw [String.length_append]
  have hb := runLoop_rows_length E lf 13 (by norm_num) (by norm_num) l st st' rows h hc
  have hb' : (joinRows rows).length ≤ l.length * (15 + 2 * E) := by
    calc (joinRows rows).length ≤ l.length * (2 + 13 + 2 * E) := hb
      _ = l.length * (15 + 2 * E) := by ring
  have hk : 1 ≤ l.length := by
    cases l with
    | nil => exact absurd rfl hl
    | cons a t => simp only [List.length_cons]; omega
  have heq : l.length * (16 + 2 * E) = l.length * (15 + 2 * E) + l.length := by ring
  omega

theorem output_capacity_bound_witness :
    (("H" : String) ++ joinRows [("1\t0 \n")]).length + 1 ≤
      1 * (16 + 2 * 1) + ("H" : String).length :=
  output_capacity_bound 1 true ⟨0, 0⟩ ⟨2, 0⟩ [0] [("1\t0 \n")] ("H") rfl (by norm_num)
    (by decide)

/-- C10: `event` returns `SR_OK` with `*data_out = NULL` and
`*length_out = 0` for every event kind and every session state, and a
second `SR_DF_END` on an already-released session is a harmless no-op
(`g_free(NULL)`), leaving the state released. -/
theorem event_always_ok_zero_output (internal : Option Context) (event_type : Nat) :
    (event internal event_type).1 = SrRet.ok ∧
    (event internal event_type).2.2.1 = none ∧
    (event internal event_type).2.2.2 = 0 ∧
    (event (event internal SR_DF_END).2.1 SR_DF_END).2.1 = none :=
  ⟨rfl, rfl, rfl, rfl⟩

end Gnuplot
